import Mathlib

/-!
Shallow embedding of the responsive image source resolver of
`page-speed-img` (the `Img` component, its legacy media-id path, and the
metadata fetch / cache utilities in `src/utils/api.ts`,
`src/utils/cache.ts` and `src/core` of the repository), together with
theorems settling the specification claims about it.

Conventions of the embedding:
* JavaScript strings are Lean `String`s; `undefined`/`null` fields are
  `Option`; the JS test `typeof v === 'string' && v.trim().length > 0`
  ("non-blank") is embedded as "some character of the string is not
  whitespace", which is equivalent to `trim().length > 0`.
* JS numbers carried in descriptors are `Int`; truthiness of a number is
  "not equal to 0", truthiness of a string is "not equal to the empty
  string", and objects are always truthy, exactly as in JavaScript.
* the network is an oracle `String → FetchOutcome` mapping a URL to the
  outcome `fetch` would produce for it; an abort surfaces as the
  distinguished `abortErr` outcome.
-/

namespace PageSpeedImg

/-- Character-wise lower casing, the embedding of `String.prototype.toLowerCase`
(and of a case-insensitive regex match) restricted to the characters the code
compares. -/
def lowerStr (s : String) : String := ⟨s.data.map Char.toLower⟩

/-- Embedding of `pre` being a literal prefix of `s` (`String.prototype.startsWith`). -/
def strHasPre (pre s : String) : Bool := pre.data.isPrefixOf s.data

/-- Embedding of the JS test `typeof v === 'string' && v.trim().length > 0` on a
string value: at least one character is not whitespace. -/
def nonBlankStr (s : String) : Bool := s.data.any (fun c => !c.isWhitespace)

/-- Non-blank test lifted to an optional (possibly absent / null) string field,
the shape of `isUrlString` / `hasUrlValue` in the source. -/
def optNonBlank (v : Option String) : Bool :=
  match v with
  | some s => nonBlankStr s
  | none => false

/-- Value of a candidate slot as the JS code sees it: a string, a truthy
non-string value (such as the `metadata` object that `Object.values` can
surface), or `undefined`. -/
inductive JsVal where
  | str (s : String)
  | other
  | absent
deriving DecidableEq, Repr

/-- Non-blank-string test on a `JsVal`, the shape of `isUrlString` applied to a
value of unknown runtime type. -/
def jsValNonBlank (v : JsVal) : Bool :=
  match v with
  | .str s => nonBlankStr s
  | _ => false

/-- Per-breakpoint widths object read from variant metadata
(`metadata.widths`); the source consults both the typed names
(`small`/`medium`/`large`/`full_size`) and short aliases (`sm`/`md`/`lg`/`full`). -/
structure WidthsMeta where
  small : Option Int := none
  medium : Option Int := none
  large : Option Int := none
  full_size : Option Int := none
  sm : Option Int := none
  md : Option Int := none
  lg : Option Int := none
  full : Option Int := none
deriving DecidableEq, Repr

/-- Variant metadata attached to one format entry of the variant map. -/
structure VariantMeta where
  widths : Option WidthsMeta := none
deriving DecidableEq, Repr

/-- One format's progressive size set: optional URL per breakpoint plus
optional metadata (`ProgressiveSizes` in `types.ts`, with the metadata
extension used by the variant map). -/
structure ProgressiveSizes where
  sm : Option String := none
  md : Option String := none
  lg : Option String := none
  full : Option String := none
  metadata : Option VariantMeta := none
deriving DecidableEq, Repr

/-- The per-format variant map (`ImageVariantsMap` in `types.ts`). -/
structure ImageVariantsMap where
  AVIF : Option ProgressiveSizes := none
  WEBP : Option ProgressiveSizes := none
  JPEG : Option ProgressiveSizes := none
deriving DecidableEq, Repr

/-- The `variants_data` payload (`ImageVariantsData` in `types.ts`). -/
structure ImageVariantsData where
  variants : Option ImageVariantsMap := none
  metadataWidth : Option Int := none
  metadataHeight : Option Int := none
  status : Option String := none
deriving DecidableEq, Repr

/-- The image descriptor (`ImageData` in `types.ts`), restricted to the fields
the resolver and classifier consult. -/
structure ImageData where
  img_url : Option String := none
  file_data_url : Option String := none
  file_data_thumbnail_url : Option String := none
  img_src : Option String := none
  med_src : Option String := none
  thumb_src : Option String := none
  low_res_thumb : Option String := none
  fallback_url : Option String := none
  variants_status : Option String := none
  variants_data : Option ImageVariantsData := none
deriving DecidableEq, Repr

/-- Default CDN host (`DEFAULT_CDN_HOST` in `api.ts`). -/
def DEFAULT_CDN_HOST : String := "https://cdn.ing"

/-- Embedding of `s.replace(/\/$/, '')`: strip one trailing slash. -/
def stripTrailingSlash (s : String) : String :=
  if s.data.getLast? = some '/' then ⟨s.data.dropLast⟩ else s

/-- Embedding of `normalizeHost` in `api.ts`. -/
def normalizeHost (cdnHost : Option String) : String :=
  stripTrailingSlash (cdnHost.getD DEFAULT_CDN_HOST)

/-- Embedding of `buildPrimaryImageUrl` in `api.ts`. -/
def buildPrimaryImageUrl (mediaId : Int) (cdnHost : Option String) : String :=
  normalizeHost cdnHost ++ "/assets/images/" ++ toString mediaId

/-- Embedding of `buildLegacyImageUrl` in `api.ts`. -/
def buildLegacyImageUrl (mediaId : Int) (cdnHost : Option String) : String :=
  normalizeHost cdnHost ++ "/i/r/" ++ toString mediaId

/-- Embedding of `buildPlaceholderImageUrl` in `api.ts`. -/
def buildPlaceholderImageUrl (mediaId : Int) (cdnHost : Option String) : String :=
  normalizeHost cdnHost ++ "/assets/low_res_thumb/" ++ toString mediaId

/-- Embedding of `hasRenderableUrlVariant` in `api.ts`: one of the four
breakpoint slots is a non-blank string. -/
def hasRenderableUrlVariant (variant : Option ProgressiveSizes) : Bool :=
  match variant with
  | none => false
  | some v => [v.sm, v.md, v.lg, v.full].any optNonBlank

/-- Embedding of `imageVariantsHaveRenderableSource` in `api.ts`: some format
entry (AVIF, WEBP, JPEG, in that order) has a renderable breakpoint slot. -/
def imageVariantsHaveRenderableSource (variants : Option ImageVariantsMap) : Bool :=
  match variants with
  | none => false
  | some vm => [vm.AVIF, vm.WEBP, vm.JPEG].any hasRenderableUrlVariant

/-- The variant map reached from a descriptor
(`data.variants_data?.variants ?? null`). -/
def variantsOfData (d : ImageData) : Option ImageVariantsMap :=
  d.variants_data.bind (fun vd => vd.variants)

/-- The direct-candidate fields of a descriptor in the fixed priority order the
source uses (both in `imageDataHasRenderableSource` and in the picture memo). -/
def directFieldList (d : ImageData) : List (Option String) :=
  [d.img_url, d.file_data_url, d.file_data_thumbnail_url, d.img_src,
   d.med_src, d.thumb_src, d.low_res_thumb]

/-- Embedding of `imageDataHasRenderableSource` in `api.ts`: the variant map is
renderable, or some direct field is a non-blank string. The `fallback_url`
field is not consulted. -/
def imageDataHasRenderableSource (d : ImageData) : Bool :=
  imageVariantsHaveRenderableSource (variantsOfData d) || (directFieldList d).any optNonBlank

/-- Default breakpoint width table (`DEFAULT_WIDTHS` in the component file). -/
structure WidthTable where
  sm : Int
  md : Int
  lg : Int
  full : Int
deriving DecidableEq, Repr

/-- The constant `DEFAULT_WIDTHS` of the component file. -/
def DEFAULT_WIDTHS : WidthTable := ⟨640, 1024, 1536, 2560⟩

/-- Embedding of `widthMapFromMetadata`: `null` unless `metadata.widths` is an
object, otherwise each slot reads the long name, then the short alias, then the
default (`w.small ?? w.sm ?? DEFAULT_WIDTHS.sm`, and so on). -/
def widthMapFromMetadata (v : Option VariantMeta) : Option WidthTable :=
  match v with
  | none => none
  | some meta =>
    match meta.widths with
    | none => none
    | some w =>
      some ⟨(w.small <|> w.sm).getD DEFAULT_WIDTHS.sm,
            (w.medium <|> w.md).getD DEFAULT_WIDTHS.md,
            (w.large <|> w.lg).getD DEFAULT_WIDTHS.lg,
            (w.full_size <|> w.full).getD DEFAULT_WIDTHS.full⟩

/-- First truthy value of a list of optional strings, the embedding of a JS
`a || b || ...` chain over string slots (an empty string is falsy). -/
def firstTruthyStr : List (Option String) → Option String
  | [] => none
  | some s :: rest => if s = "" then firstTruthyStr rest else some s
  | none :: rest => firstTruthyStr rest

/-- Embedding of `pickBest`:
`sizes.md || sizes.lg || sizes.sm || sizes.full || Object.values(sizes).find(Boolean)`.
When every breakpoint slot is falsy, the only remaining own value that can be
truthy is the `metadata` object, which is not a string. -/
def pickBest (sizes : Option ProgressiveSizes) : JsVal :=
  match sizes with
  | none => .absent
  | some v =>
    match firstTruthyStr [v.md, v.lg, v.sm, v.full] with
    | some s => .str s
    | none => if v.metadata.isSome then .other else .absent

/-- Embedding of `ensureAbsolute` from the picture memo of `LegacyImg`, with
the surrounding `cdnOrigin` as a parameter. Branch order is the source's:
blank guard, case-insensitive `^https?:\/\/` or literal `data:` pass-through,
protocol-relative, root-relative, bare path. -/
def ensureAbsolute (cdnOrigin : String) (url : Option String) : Option String :=
  match url with
  | none => none
  | some u =>
    if !nonBlankStr u then none
    else if strHasPre "http://" (lowerStr u) || strHasPre "https://" (lowerStr u)
            || strHasPre "data:" u then some u
    else if strHasPre "//" u then some ("https:" ++ u)
    else if strHasPre "/" u then some (cdnOrigin ++ u)
    else some (cdnOrigin ++ "/" ++ u)

/-- Embedding of `normalizeCandidate`: forward a string candidate to
`ensureAbsolute`, drop any non-string value. -/
def normalizeCandidate (cdnOrigin : String) (candidate : JsVal) : Option String :=
  match candidate with
  | .str s => ensureAbsolute cdnOrigin (some s)
  | _ => none

/-- Breakpoint slot read as the candidate value the picture memo sees
(`webp?.sm` and friends). -/
def slotVal (v : Option ProgressiveSizes) (f : ProgressiveSizes → Option String) : JsVal :=
  match v.bind f with
  | some s => .str s
  | none => .absent

/-- Embedding of `.filter(isUrlString)` applied after the normalization map:
keep exactly the non-blank string results. -/
def jsFilterUrl (l : List (Option String)) : List String :=
  l.filterMap (fun o => o.bind (fun s => if nonBlankStr s then some s else none))

/-- Raw variant candidate list of the picture memo, in source order: the three
`pickBest` results (WEBP, JPEG, AVIF), then every raw slot of WEBP, JPEG, AVIF
in breakpoint order sm, md, lg, full. -/
def variantCandidateVals (vm : ImageVariantsMap) : List JsVal :=
  [pickBest vm.WEBP, pickBest vm.JPEG, pickBest vm.AVIF,
   slotVal vm.WEBP ProgressiveSizes.sm, slotVal vm.WEBP ProgressiveSizes.md,
   slotVal vm.WEBP ProgressiveSizes.lg, slotVal vm.WEBP ProgressiveSizes.full,
   slotVal vm.JPEG ProgressiveSizes.sm, slotVal vm.JPEG ProgressiveSizes.md,
   slotVal vm.JPEG ProgressiveSizes.lg, slotVal vm.JPEG ProgressiveSizes.full,
   slotVal vm.AVIF ProgressiveSizes.sm, slotVal vm.AVIF ProgressiveSizes.md,
   slotVal vm.AVIF ProgressiveSizes.lg, slotVal vm.AVIF ProgressiveSizes.full]

/-- The variant map the picture memo works on
(`data.variants_data?.variants ?? {}`). -/
def pictureVariantMap (d : ImageData) : ImageVariantsMap :=
  (variantsOfData d).getD {}

/-- Normalized, filtered variant candidates (`variantCandidates` in the memo). -/
def variantCandidates (cdnOrigin : String) (d : ImageData) : List String :=
  jsFilterUrl ((variantCandidateVals (pictureVariantMap d)).map (normalizeCandidate cdnOrigin))

/-- Normalized, filtered direct candidates (`directCandidates` in the memo):
each raw field passes only when it is a non-blank string, then is normalized. -/
def directCandidates (cdnOrigin : String) (d : ImageData) : List String :=
  jsFilterUrl ((directFieldList d).map (fun c =>
    match c with
    | some s => if nonBlankStr s then ensureAbsolute cdnOrigin (some s) else none
    | none => none))

/-- Normalized, filtered fallback candidate (`fallbackCandidates` in the memo):
kept only when `fallback_url` is truthy (a non-empty string). -/
def fallbackCandidates (cdnOrigin : String) (d : ImageData) : List String :=
  match d.fallback_url with
  | some s => if s = "" then [] else jsFilterUrl [ensureAbsolute cdnOrigin (some s)]
  | none => []

/-- The chosen fallback URL of the picture memo:
`[...variantCandidates, ...directCandidates, ...fallbackCandidates][0]`. -/
def legacyFallback (cdnOrigin : String) (d : ImageData) : Option String :=
  (variantCandidates cdnOrigin d ++ directCandidates cdnOrigin d
    ++ fallbackCandidates cdnOrigin d).head?

/-- Width table chosen by the picture memo: WEBP metadata first, then JPEG
metadata, then the default table. -/
def pictureWidths (vm : ImageVariantsMap) : WidthTable :=
  ((widthMapFromMetadata (vm.WEBP.bind (fun v => v.metadata))).or
    (widthMapFromMetadata (vm.JPEG.bind (fun v => v.metadata)))).getD DEFAULT_WIDTHS

/-- One `push(url, width)` step of `toSrcSet`: contributes
`"<absolute> <width>w"` only when the normalized URL exists and the width is
truthy (non-zero). -/
def srcPush (cdnOrigin : String) (url : Option String) (width : Int) : List String :=
  match ensureAbsolute cdnOrigin url with
  | some absolute => if width = 0 then [] else [absolute ++ " " ++ toString width ++ "w"]
  | none => []

/-- Entry list of `toSrcSet` for one format, in breakpoint order sm, md, lg,
full. -/
def srcSetEntries (cdnOrigin : String) (w : WidthTable) (v : ProgressiveSizes) : List String :=
  srcPush cdnOrigin v.sm w.sm ++ srcPush cdnOrigin v.md w.md
    ++ srcPush cdnOrigin v.lg w.lg ++ srcPush cdnOrigin v.full w.full

/-- Embedding of `toSrcSet`: `undefined` without a size set or with zero
entries, otherwise the entries joined by `", "`. -/
def toSrcSet (cdnOrigin : String) (w : WidthTable) (sizes : Option ProgressiveSizes) : Option String :=
  match sizes with
  | none => none
  | some v =>
    let entries := srcSetEntries cdnOrigin w v
    if entries.isEmpty then none else some (String.intercalate ", " entries)

/-- Result of the picture memo when it does not return `null`. -/
structure PictureResult where
  webp : Option ProgressiveSizes
  avif : Option ProgressiveSizes
  jpeg : Option ProgressiveSizes
  fallback : String
  widths : WidthTable
deriving DecidableEq, Repr

/-- Embedding of the picture memo of `LegacyImg` for a received descriptor:
`null` exactly when no candidate survives normalization and filtering. -/
def pictureOf (cdnOrigin : String) (d : ImageData) : Option PictureResult :=
  let vm := pictureVariantMap d
  match legacyFallback cdnOrigin d with
  | none => none
  | some fb => some ⟨vm.WEBP, vm.AVIF, vm.JPEG, fb, pictureWidths vm⟩

/-- A JS number as the component receives it: the finiteness test
`Number.isFinite` plus the integral value used once finite. -/
structure JsNum where
  finite : Bool
  val : Int
deriving DecidableEq, Repr

/-- Outcome the network oracle assigns to one URL: a parsed descriptor, a
non-2xx response with its status, an abort rejection, or another transport
rejection identified by an opaque tag. -/
inductive FetchOutcome where
  | ok (d : ImageData)
  | httpErr (status : Nat)
  | abortErr
  | netErr (tag : Nat)
deriving DecidableEq, Repr

/-- Errors `fetchImageData` can reject with: the invalid-identifier guard, the
constructed non-2xx error carrying URL and status, a rethrown transport
rejection, a rethrown abort, or the final generic error. -/
inductive FetchErr where
  | invalidInput
  | http (url : String) (status : Nat)
  | net (tag : Nat)
  | abort
  | generic
deriving DecidableEq, Repr

/-- True for the outcomes whose rejection is not an abort, the ones the
fallback loop records in `lastError` and falls through. -/
def FetchOutcome.isFailNonAbort : FetchOutcome → Bool
  | .httpErr _ => true
  | .netErr _ => true
  | _ => false

/-- Embedding of `fetchFrom` in `api.ts` against the network oracle. -/
def fetchFrom (world : String → FetchOutcome) (url : String) : Except FetchErr ImageData :=
  match world url with
  | .ok d => .ok d
  | .httpErr s => .error (.http url s)
  | .abortErr => .error .abort
  | .netErr t => .error (.net t)

/-- The module-level result cache (`cache.ts`), modelled as an association
list with latest-write-first lookup. -/
def Cache := List (String × ImageData)

/-- Embedding of `cacheGet`. -/
def cacheGet (key : String) (c : Cache) : Option ImageData :=
  ((c : List (String × ImageData)).find? (fun kv => kv.1 = key)).map (fun kv => kv.2)

/-- Embedding of `cacheSet` (last write wins on lookup). -/
def cacheSet (key : String) (v : ImageData) (c : Cache) : Cache :=
  ((key, v) :: c : List (String × ImageData))

/-- The cache key `fetchImageData` builds:
`` `image:${host}:${mediaId}` `` with the normalized host. -/
def mkCacheKey (host : String) (mediaId : Int) : String :=
  "image:" ++ host ++ ":" ++ toString mediaId

/-- Options of `fetchImageData`; the abort signal is part of the oracle (an
aborted request surfaces as the `abortErr` outcome). -/
structure FetchOptions where
  cdnHost : Option String := none
  bypassCache : Bool := false
deriving Repr

/-- Result of one `fetchImageData` call: the settled value, the cache after
the call, the writes the call performed, and the URLs it attempted in order. -/
structure FetchResult where
  result : Except FetchErr ImageData
  cache : Cache
  writes : List (String × ImageData)
  attempted : List String

/-- The sequential fallback loop of `fetchImageData` over the candidate URL
list, threading `lastError` and the attempt trace. -/
def fetchLoop (world : String → FetchOutcome) (key : String) (cache : Cache)
    (lastErr : Option FetchErr) (attempted : List String) :
    List String → FetchResult
  | [] => ⟨.error (lastErr.getD .generic), cache, [], attempted⟩
  | url :: rest =>
    match world url with
    | .ok d =>
      if imageDataHasRenderableSource d then
        ⟨.ok d, cacheSet key d cache, [(key, d)], attempted ++ [url]⟩
      else
        ⟨.ok d, cache, [], attempted ++ [url]⟩
    | .abortErr => ⟨.error .abort, cache, [], attempted ++ [url]⟩
    | .httpErr s => fetchLoop world key cache (some (.http url s)) (attempted ++ [url]) rest
    | .netErr t => fetchLoop world key cache (some (.net t)) (attempted ++ [url]) rest

/-- Embedding of `fetchImageData` in `api.ts`: identifier guard, cache check,
then the primary/legacy fallback loop. -/
def fetchImageData (world : String → FetchOutcome) (mediaId : JsNum)
    (options : FetchOptions) (cache : Cache) : FetchResult :=
  if !mediaId.finite then ⟨.error .invalidInput, cache, [], []⟩
  else
    let host := normalizeHost options.cdnHost
    let key := mkCacheKey host mediaId.val
    match if options.bypassCache then none else cacheGet key cache with
    | some cached => ⟨.ok cached, cache, [], []⟩
    | none =>
      fetchLoop world key cache none []
        [buildPrimaryImageUrl mediaId.val (some host), buildLegacyImageUrl mediaId.val (some host)]

/-- Retry ceiling constant (`MAX_VARIANT_REFRESH_ATTEMPTS`). -/
def MAX_VARIANT_REFRESH_ATTEMPTS : Nat := 5

/-- Retry delay constant in milliseconds (`VARIANT_REFRESH_DELAY_MS`). -/
def VARIANT_REFRESH_DELAY_MS : Nat := 3000

/-- Cache-bypass flag the legacy fetch effect passes
(`bypassCache: retryCount > 0`). -/
def legacyBypassCache (retryCount : Nat) : Bool := decide (0 < retryCount)

/-- Embedding of the `variantsStatus` memo:
`((data?.variants_data?.status ?? data?.variants_status) ?? '').toLowerCase()`. -/
def variantsStatusOf (data : Option ImageData) : String :=
  lowerStr ((data.bind (fun d => (d.variants_data.bind (fun vd => vd.status)) <|> d.variants_status)).getD "")

/-- Embedding of `variantsFailed`. -/
def variantsFailedOf (data : Option ImageData) : Bool :=
  variantsStatusOf data = "failed" || variantsStatusOf data = "error"

/-- Embedding of the `hasVariantEntries` memo:
`imageVariantsHaveRenderableSource(data?.variants_data?.variants ?? null)`. -/
def hasVariantEntriesOf (data : Option ImageData) : Bool :=
  imageVariantsHaveRenderableSource (data.bind variantsOfData)

/-- Embedding of the `shouldPollForVariants` expression of `LegacyImg`. -/
def shouldPollForVariants (hasMediaId : Bool) (data : Option ImageData) (retryCount : Nat) : Bool :=
  hasMediaId && data.isSome && !variantsFailedOf data && !hasVariantEntriesOf data
    && decide (retryCount < MAX_VARIANT_REFRESH_ATTEMPTS)

/-- Reactive state of one `LegacyImg` mount with a fixed finite media id:
the received descriptor, the retry counter, whether a fetch is in flight, and
the timer effect's bookkeeping — whether a 3000 ms timeout is currently armed
and the value of `shouldPollForVariants` at the previous committed render
(the effect's dependency). -/
structure PollState where
  data : Option ImageData
  retryCount : Nat
  pending : Bool
  armed : Bool
  prevShould : Bool
deriving DecidableEq, Repr

/-- The polling condition at a state (`shouldPollForVariants` with
`hasMediaId = true`). -/
def pollCond (s : PollState) : Bool :=
  shouldPollForVariants true s.data s.retryCount

/-- Re-evaluation of the timer effect after a committed state change: the
effect re-runs only when its boolean dependency changed. A false→true edge
arms a new timeout, a true→false edge clears any armed timeout, and a
sustained value leaves the armed timeout (or its absence) untouched. -/
def applyPollEffects (s : PollState) : PollState :=
  let ns := pollCond s
  if ns && !s.prevShould then { s with armed := true, prevShould := ns }
  else if !ns then { s with armed := false, prevShould := ns }
  else { s with prevShould := ns }

/-- Mount state: no descriptor yet, counter zero, the initial fetch in
flight, no timer, and the effect last saw a false condition. -/
def pollInitState : PollState := ⟨none, 0, true, false, false⟩

/-- Events of a legacy mount: a fetch resolving with a descriptor, or the
armed refresh timeout firing. -/
inductive PollEv where
  | receive (d : ImageData)
  | timer
deriving DecidableEq, Repr

/-- One event step; `none` when the event cannot occur in the state (no fetch
in flight, or no timeout armed). Firing the timeout consumes it, increments
the counter and issues a bypassing re-fetch. -/
def pollStep (s : PollState) : PollEv → Option PollState
  | .receive d =>
    if s.pending then some (applyPollEffects { s with data := some d, pending := false })
    else none
  | .timer =>
    if s.armed then
      some (applyPollEffects { s with retryCount := s.retryCount + 1, pending := true, armed := false })
    else none

/-- Run a list of events from a state; `none` when some event is impossible. -/
def pollRun (s : PollState) : List PollEv → Option PollState
  | [] => some s
  | e :: rest => (pollStep s e).bind (fun s' => pollRun s' rest)

/-- Number of timer firings (re-fetches) in an event list. -/
def countTimer (evs : List PollEv) : Nat :=
  (evs.filter (fun e => e = PollEv.timer)).length

/-- Legacy visibility props: whether a finite media id is present and whether
the effective loading attribute (`loading ?? 'lazy'`) is `'lazy'`. -/
structure VisProps where
  hasMediaId : Bool
  lazyLoad : Bool
deriving DecidableEq, Repr

/-- Value the sync effect assigns to `isInView` when it runs:
`true` unless a media id is present and loading is lazy. -/
def visEffectValue (p : VisProps) : Bool := !p.hasMediaId || !p.lazyLoad

/-- Visibility state of a legacy mount: the current props and the `isInView`
boolean (`false` covers the not-yet-observed and pending-in-viewport-check
stages, `true` is in-view). -/
structure VisState where
  props : VisProps
  inView : Bool
deriving DecidableEq, Repr

/-- Mount state: the `useState` initializer `!hasMediaId || loadingAttr !== 'lazy'`
(the mount-time sync effect assigns the same value). -/
def visInit (p : VisProps) : VisState := ⟨p, visEffectValue p⟩

/-- Events of the visibility machine: a change of the effect dependencies
(media id or loading attribute) re-running the sync effect, the intersection
observer reporting an intersection, and the fail-open path when the
IntersectionObserver capability is missing. -/
inductive VisEv where
  | propsChange (p : VisProps)
  | observerFire
  | ioUnavailable
deriving DecidableEq, Repr

/-- One visibility step. The observer exists (and the fail-open branch runs)
only while a lazy media-id mount is not yet in view. -/
def visStep (s : VisState) : VisEv → VisState
  | .propsChange p => ⟨p, visEffectValue p⟩
  | .observerFire =>
    if s.props.hasMediaId && s.props.lazyLoad && !s.inView then ⟨s.props, true⟩ else s
  | .ioUnavailable =>
    if s.props.hasMediaId && s.props.lazyLoad && !s.inView then ⟨s.props, true⟩ else s

/-- Run a list of visibility events. -/
def visRun (s : VisState) (evs : List VisEv) : VisState :=
  evs.foldl visStep s

/-- Props of the `Img` entry component, restricted to what dispatch reads:
the media id (absent or a JS number) and the `src` prop (`none` covers an
absent or non-string value). -/
structure ImgPropsM where
  mediaId : Option JsNum := none
  src : Option String := none
deriving DecidableEq, Repr

/-- Embedding of `Number.isFinite(props.mediaId)`. -/
def hasMediaIdP (p : ImgPropsM) : Bool :=
  match p.mediaId with
  | some n => n.finite
  | none => false

/-- Embedding of `typeof props.src === 'string' && props.src.trim().length > 0`. -/
def hasSrcP (p : ImgPropsM) : Bool := optNonBlank p.src

/-- Render alternatives of `ImgBase`. -/
inductive Dispatch where
  | legacy
  | modern
  | nothing
deriving DecidableEq, Repr

/-- Warning text of the missing-source branch of `ImgBase`. -/
def noSrcWarningMsg : String :=
  "<Img /> requires either src or mediaId. No src provided, rendering null."

/-- Deprecation warning text for a media id. -/
def deprecationMsg (id : Int) : String :=
  "[DEPRECATED] <Img mediaId> is deprecated. Provide src + optixFlowConfig instead. " ++ toString id

/-- Embedding of `warnDeprecatedMediaId` against the module-level
`deprecatedMediaWarnings` set (modelled as the list of ids already warned). -/
def warnDeprecatedMediaId (warned : List Int) (mediaId : Option JsNum) : List String × List Int :=
  match mediaId with
  | some n =>
    if n.finite then
      if warned.contains n.val then ([], warned)
      else ([deprecationMsg n.val], n.val :: warned)
    else ([], warned)
  | none => ([], warned)

/-- Embedding of the `ImgBase` dispatch: legacy path for a finite media id
(after the deprecation warning), the null render with a console warning when
neither a finite media id nor a usable `src` exists, the modern path
otherwise. Returns the chosen render, the warnings emitted, and the updated
warned-id set; it is a total function — no branch throws. -/
def imgBase (warned : List Int) (p : ImgPropsM) : Dispatch × List String × List Int :=
  if hasMediaIdP p then
    let (w, warned') := warnDeprecatedMediaId warned p.mediaId
    (.legacy, w, warned')
  else if hasSrcP p then (.modern, [], warned)
  else (.nothing, [noSrcWarningMsg], warned)

/-- Placeholder render condition of `LegacyImg` after the media-id branch:
`!data || !picture || !isInView`. -/
def legacyRenderIsPlaceholder (data : Option ImageData) (pic : Option PictureResult)
    (inView : Bool) : Bool :=
  data.isNone || pic.isNone || !inView

/-- Candidate value of an optional string field, as one entry of the
specification's candidate order. -/
def jsOfOpt (o : Option String) : JsVal :=
  match o with
  | some s => .str s
  | none => .absent

/-- First slot that is a non-blank string, in list order. -/
def firstNonBlankOpt : List (Option String) → Option String
  | [] => none
  | some s :: rest => if nonBlankStr s then some s else firstNonBlankOpt rest
  | none :: rest => firstNonBlankOpt rest

/-- Modelled from the spec: the claim's best-of for one size set — prefer the
md, lg, sm, full slots in that order (a present non-empty slot wins), then any
remaining non-blank slot. -/
def c2BestOf (sizes : Option ProgressiveSizes) : JsVal :=
  match sizes with
  | none => .absent
  | some v =>
    match firstTruthyStr [v.md, v.lg, v.sm, v.full] with
    | some s => .str s
    | none =>
      match firstNonBlankOpt [v.sm, v.md, v.lg, v.full] with
      | some s => .str s
      | none => .absent

/-- Modelled from the spec: the full candidate order of claim C2 — best-of
WEBP, JPEG, AVIF, every raw slot of WEBP, JPEG, AVIF in breakpoint order, the
direct fields in priority order, then `fallback_url`. -/
def c2SpecCandidates (d : ImageData) : List JsVal :=
  (let vm := pictureVariantMap d
   [c2BestOf vm.WEBP, c2BestOf vm.JPEG, c2BestOf vm.AVIF,
    slotVal vm.WEBP ProgressiveSizes.sm, slotVal vm.WEBP ProgressiveSizes.md,
    slotVal vm.WEBP ProgressiveSizes.lg, slotVal vm.WEBP ProgressiveSizes.full,
    slotVal vm.JPEG ProgressiveSizes.sm, slotVal vm.JPEG ProgressiveSizes.md,
    slotVal vm.JPEG ProgressiveSizes.lg, slotVal vm.JPEG ProgressiveSizes.full,
    slotVal vm.AVIF ProgressiveSizes.sm, slotVal vm.AVIF ProgressiveSizes.md,
    slotVal vm.AVIF ProgressiveSizes.lg, slotVal vm.AVIF ProgressiveSizes.full])
    ++ (directFieldList d).map jsOfOpt ++ [jsOfOpt d.fallback_url]

/-- Breakpoint slots of one format entry, absent entries contributing none. -/
def slotList (v : Option ProgressiveSizes) : List (Option String) :=
  match v with
  | none => []
  | some ps => [ps.sm, ps.md, ps.lg, ps.full]

/-- All breakpoint slots of a descriptor's variant map, over the three format
entries. -/
def variantSlotList (d : ImageData) : List (Option String) :=
  match variantsOfData d with
  | none => []
  | some vm => slotList vm.AVIF ++ slotList vm.WEBP ++ slotList vm.JPEG

/-- Modelled from the spec: the absoluteness shape claim C9 asserts for every
emitted URL — it starts with `http://` or `https://` (case-insensitively), or
with `data:`, or it is the normalized CDN origin followed by further text. -/
def absolutePerClaim (H r : String) : Prop :=
  strHasPre "http://" (lowerStr r) = true ∨ strHasPre "https://" (lowerStr r) = true
    ∨ strHasPre "data:" r = true ∨ ∃ t, r = H ++ t

/-- Modelled from the spec (claim C7 as amended): entry list of a source set —
each breakpoint in order sm, md, lg, full contributes
`"<absolute> <width>w"` when its URL normalizes and its width is non-zero. -/
def srcSetEntriesSpec (H : String) (w : WidthTable) (v : ProgressiveSizes) : List String :=
  [(v.sm, w.sm), (v.md, w.md), (v.lg, w.lg), (v.full, w.full)].filterMap
    (fun sw => (ensureAbsolute H sw.1).bind
      (fun u => if sw.2 = 0 then none else some (u ++ " " ++ toString sw.2 ++ "w")))

/-- Modelled from the spec: the claim's width-table choice — the WEBP metadata
table when its `widths` object exists, else the JPEG one, else the defaults. -/
def widthsSpec (vm : ImageVariantsMap) : WidthTable :=
  match widthMapFromMetadata (vm.WEBP.bind (fun v => v.metadata)) with
  | some t => t
  | none =>
    match widthMapFromMetadata (vm.JPEG.bind (fun v => v.metadata)) with
    | some t => t
    | none => DEFAULT_WIDTHS

/-- True when an event list contains no dependency-changing props event. -/
def noPropsChange (evs : List VisEv) : Bool :=
  evs.all (fun e => match e with
    | .propsChange _ => false
    | _ => true)

/-- Descriptor whose only source is `fallback_url` (counterexample data). -/
def dFB : ImageData := { fallback_url := some "https://x/y.jpg" }

/-- Descriptor whose only source is the direct field `img_url`. -/
def dImg : ImageData := { img_url := some "/img/1.jpg" }

/-- Descriptor with no source at all and a non-failed processing status. -/
def dPend : ImageData := { variants_data := some { status := some "pending" } }

/-- Descriptor the legacy endpoint of the witness world returns. -/
def dW : ImageData := { img_url := some "/w.jpg" }

/-- Witness network oracle: the primary endpoint answers 500, the legacy
endpoint succeeds. -/
def worldW : String → FetchOutcome := fun u =>
  if u = buildPrimaryImageUrl 7 (some "https://cdn.ing") then .httpErr 500
  else if u = buildLegacyImageUrl 7 (some "https://cdn.ing") then .ok dW
  else .abortErr

/-- Variant metadata declaring an explicit small width of 0 (counterexample
data for claim C7). -/
def m0 : VariantMeta := { widths := some { small := some 0 } }

/-- WEBP size set with a renderable sm slot and the zero-width metadata. -/
def vWebp : ProgressiveSizes := { sm := some "/a.webp", metadata := some m0 }

/-- Variant map carrying only the WEBP entry above. -/
def vmW : ImageVariantsMap := { WEBP := some vWebp }

/-- Poll state after the first descriptor arrives for `dImg`. -/
def pollStateA : PollState := ⟨some dImg, 0, false, true, true⟩

/-- Poll state after receive, timer fire and second receive for `dPend`. -/
def pollStateB : PollState := ⟨some dPend, 1, false, false, true⟩

/-- Poll state after receive and timer fire for `dPend` (witness trace). -/
def pollStateW : PollState := ⟨some dPend, 1, true, false, true⟩

/-- Picture result the memo computes for `dImg` on the default host. -/
def prW : PictureResult := ⟨none, none, none, "https://cdn.ing/img/1.jpg", DEFAULT_WIDTHS⟩

/-- The candidate values of the code-side concatenated list, in code order. -/
def codeCandVals (d : ImageData) : List JsVal :=
  variantCandidateVals (pictureVariantMap d) ++ (directFieldList d).map jsOfOpt
    ++ [jsOfOpt d.fallback_url]

/-- Invariant of the poll machine: an armed timeout implies the polling
condition holds now (so the counter is below the ceiling) and the effect saw
it hold, and the counter never exceeds the ceiling. -/
def pollInv (s : PollState) : Prop :=
  (s.armed = true → pollCond s = true ∧ s.prevShould = true)
    ∧ s.retryCount ≤ MAX_VARIANT_REFRESH_ATTEMPTS

end PageSpeedImg

namespace PageSpeedImg

lemma hasRenderableUrlVariant_iff (v : Option ProgressiveSizes) :
    hasRenderableUrlVariant v = true ↔ ∃ o ∈ slotList v, optNonBlank o = true := by
  cases v <;> simp [hasRenderableUrlVariant, slotList, List.any_eq_true]

lemma imageVariants_iff (vm : ImageVariantsMap) :
    imageVariantsHaveRenderableSource (some vm) = true ↔
      ∃ o ∈ slotList vm.AVIF ++ slotList vm.WEBP ++ slotList vm.JPEG,
        optNonBlank o = true := by
  simp only [imageVariantsHaveRenderableSource, List.any_eq_true, List.mem_append,
    List.mem_cons, List.mem_singleton, List.not_mem_nil, or_false,
    hasRenderableUrlVariant_iff, exists_eq_or_imp, exists_eq_left]
  aesop

/-- Claim C1 (amended): the classifier returns true iff some breakpoint slot of
some variant-map entry or some direct-candidate field is a non-blank string;
the single fallback candidate `fallback_url` is not consulted. -/
theorem c1_classifier_amended (d : ImageData) :
    imageDataHasRenderableSource d = true ↔
      ((∃ o ∈ variantSlotList d, optNonBlank o = true)
        ∨ (∃ o ∈ directFieldList d, optNonBlank o = true)) := by
  simp only [imageDataHasRenderableSource, Bool.or_eq_true, List.any_eq_true]
  cases hm : variantsOfData d with
  | none => simp [variantSlotList, hm, imageVariantsHaveRenderableSource]
  | some vm => simp [variantSlotList, hm, imageVariants_iff]

/-- Claim C1 counterexample: a descriptor whose only non-blank candidate is
`fallback_url` is classified as not renderable, although the claim counts the
fallback candidate. -/
theorem c1_classifier_cex :
    imageDataHasRenderableSource dFB = false ∧ optNonBlank dFB.fallback_url = true := by
  constructor <;> decide

/-- Witness: the amended claim applied to a descriptor with a non-blank direct
field. -/
theorem c1_classifier_witness : imageDataHasRenderableSource dImg = true :=
  (c1_classifier_amended dImg).mpr (Or.inr ⟨some "/img/1.jpg", by decide, by decide⟩)

end PageSpeedImg
namespace PageSpeedImg

lemma filterMap_quad {α β : Type} (f : α → Option β) (a b c d : α) :
    List.filterMap f [a, b, c, d] = (f a).toList ++ (f b).toList ++ (f c).toList ++ (f d).toList := by
  cases hfa : f a <;> cases hfb : f b <;> cases hfc : f c <;> cases hfd : f d <;>
    simp [List.filterMap_cons, hfa, hfb, hfc, hfd]

lemma srcPush_toList (H : String) (u : Option String) (wd : Int) :
    srcPush H u wd
      = ((ensureAbsolute H u).bind
          (fun a => if wd = 0 then none else some (a ++ " " ++ toString wd ++ "w"))).toList := by
  unfold srcPush
  cases h : ensureAbsolute H u
  · simp
  · simp only [Option.bind_some]
    split <;> simp_all

lemma srcSetEntries_eq_spec (H : String) (w : WidthTable) (v : ProgressiveSizes) :
    srcSetEntries H w v = srcSetEntriesSpec H w v := by
  simp only [srcSetEntries, srcSetEntriesSpec, srcPush_toList, filterMap_quad, List.append_assoc]

/-- Claim C7 (amended): per format, the source-set string is built from the
breakpoints in order sm, md, lg, full, each contributing
`"<absoluteUrl> <width>w"` only when its width entry is non-zero, joined by
`", "` and omitted when no breakpoint contributes; the width table comes from
WEBP metadata if its widths object exists, else JPEG metadata, else the
default table {sm 640, md 1024, lg 1536, full 2560}. -/
theorem c7_srcset_amended (H : String) (w : WidthTable) :
    (∀ v, toSrcSet H w (some v)
        = (if srcSetEntriesSpec H w v = [] then none
           else some (String.intercalate ", " (srcSetEntriesSpec H w v))))
      ∧ toSrcSet H w none = none
      ∧ (∀ vm : ImageVariantsMap, pictureWidths vm = widthsSpec vm)
      ∧ DEFAULT_WIDTHS = ⟨640, 1024, 1536, 2560⟩ := by
  refine ⟨fun v => ?_, rfl, fun vm => ?_, rfl⟩
  · simp only [toSrcSet, srcSetEntries_eq_spec]
    cases srcSetEntriesSpec H w v <;> simp [List.isEmpty]
  · simp only [pictureWidths, widthsSpec]
    cases widthMapFromMetadata (vm.WEBP.bind (fun x => x.metadata)) <;>
      cases widthMapFromMetadata (vm.JPEG.bind (fun x => x.metadata)) <;> simp [Option.or]

/-- Claim C7 counterexample: WEBP metadata declaring width 0 for the small
breakpoint makes a present sm URL contribute nothing, so the format yields no
source-set entry at all. -/
theorem c7_srcset_cex :
    toSrcSet "https://cdn.ing" (pictureWidths vmW) (some vWebp) = none
      ∧ (ensureAbsolute "https://cdn.ing" vWebp.sm).isSome = true
      ∧ (pictureWidths vmW).sm = 0 := by
  refine ⟨by decide, by decide, by decide⟩

/-- Witness: the amended source-set claim at a concrete format entry. -/
theorem c7_srcset_witness :
    toSrcSet "https://cdn.ing" DEFAULT_WIDTHS (some vWebp)
      = (if srcSetEntriesSpec "https://cdn.ing" DEFAULT_WIDTHS vWebp = [] then none
         else some (String.intercalate ", "
            (srcSetEntriesSpec "https://cdn.ing" DEFAULT_WIDTHS vWebp))) :=
  (c7_srcset_amended "https://cdn.ing" DEFAULT_WIDTHS).1 vWebp

/-- Claim C10: with no finite media id and an absent or blank `src`, `Img`
warns and renders nothing; a finite media id always dispatches to the legacy
path; otherwise a usable `src` dispatches to the modern path. The dispatch is
a total function, so no branch throws. -/
theorem c10_dispatch (warned : List Int) (p : ImgPropsM) :
    (hasMediaIdP p = false → hasSrcP p = false →
        imgBase warned p = (.nothing, [noSrcWarningMsg], warned))
      ∧ (hasMediaIdP p = true → (imgBase warned p).1 = .legacy)
      ∧ (hasMediaIdP p = false → hasSrcP p = true → imgBase warned p = (.modern, [], warned)) := by
  refine ⟨fun h1 h2 => ?_, fun h1 => ?_, fun h1 h2 => ?_⟩
  · simp [imgBase, h1, h2]
  · simp [imgBase, h1]
  · simp [imgBase, h1, h2]

/-- Witness: the three dispatch outcomes at concrete props. -/
theorem c10_dispatch_witness :
    hasMediaIdP { mediaId := none, src := some "  " } = false
      ∧ hasSrcP { mediaId := none, src := some "  " } = false
      ∧ imgBase [] { mediaId := none, src := some "  " }
          = (.nothing, [noSrcWarningMsg], []) :=
  ⟨by decide, by decide,
    (c10_dispatch [] { mediaId := none, src := some "  " }).1 (by decide) (by decide)⟩

lemma visStep_preserves (s : VisState) (e : VisEv)
    (he : (match e with | VisEv.propsChange _ => false | _ => true) = true)
    (hv : s.inView = true) : (visStep s e).inView = true := by
  cases e with
  | propsChange p => simp at he
  | observerFire =>
    simp only [visStep]
    split <;> simp [hv]
  | ioUnavailable =>
    simp only [visStep]
    split <;> simp [hv]

/-- Claim C8 (amended): while the dependencies of the sync effect (media id
and effective loading attribute) stay fixed, the visibility state is
monotone — once in-view, every later state is in-view; only a dependency
change re-runs the sync effect and can reset the state. -/
theorem c8_visibility_amended (s : VisState) (evs : List VisEv)
    (hnp : noPropsChange evs = true) (hv : s.inView = true) :
    (visRun s evs).inView = true := by
  induction evs generalizing s with
  | nil => exact hv
  | cons e rest ih =>
    simp only [noPropsChange, List.all_cons, Bool.and_eq_true] at hnp
    exact ih _ (by simp [noPropsChange, hnp.2]) (visStep_preserves s e hnp.1 hv)

/-- Claim C8 counterexample: a mount that starts in-view (eager loading)
reverts to not-in-view when the loading attribute changes to lazy and the sync
effect re-runs. -/
theorem c8_visibility_cex :
    (visInit ⟨true, false⟩).inView = true
      ∧ (visRun (visInit ⟨true, false⟩) [.propsChange ⟨true, true⟩]).inView = false := by
  exact ⟨by decide, by decide⟩

/-- Witness: monotonicity across an observer event at concrete state. -/
theorem c8_visibility_witness :
    noPropsChange [VisEv.observerFire] = true
      ∧ (visRun ⟨⟨true, true⟩, true⟩ [VisEv.observerFire]).inView = true :=
  ⟨by decide, c8_visibility_amended ⟨⟨true, true⟩, true⟩ [VisEv.observerFire] (by decide) rfl⟩

end PageSpeedImg
namespace PageSpeedImg

lemma strHasPre_single (u : String) (c : Char) :
    strHasPre ⟨[c]⟩ u = true ↔ ∃ t, u.data = c :: t := by
  constructor
  · intro h
    cases hd : u.data with
    | nil => simp [strHasPre, hd, List.isPrefixOf] at h
    | cons b t =>
      simp [strHasPre, hd, List.isPrefixOf] at h
      obtain rfl : c = b := h
      exact ⟨t, rfl⟩
  · rintro ⟨t, ht⟩
    simp [strHasPre, ht, List.isPrefixOf]

lemma slash_no_scheme (u : String) (h : strHasPre "/" u = true) :
    strHasPre "http://" (lowerStr u) = false ∧ strHasPre "https://" (lowerStr u) = false
      ∧ strHasPre "data:" u = false := by
  have h' : strHasPre ⟨['/']⟩ u = true := h
  rcases (strHasPre_single u '/').mp h' with ⟨t, ht⟩
  have hlt : (lowerStr u).data = '/' :: t.map Char.toLower := by
    simp [lowerStr, ht]
  refine ⟨?_, ?_, ?_⟩ <;> simp [strHasPre, hlt, ht, List.isPrefixOf]

/-- Claim C6: the URL normalizer returns `https:` + s for a protocol-relative
string, host + s for a root-relative one, s unchanged when already absolute
(`http`/`https`, case-insensitively) or a `data:` URL, host + `/` + s
otherwise, and no candidate at all for a blank or absent input — never a
string. -/
theorem c6_url_normalizer (H u : String) :
    (ensureAbsolute H (some u)
      = (if nonBlankStr u = false then none
         else if strHasPre "//" u then some ("https:" ++ u)
         else if strHasPre "/" u then some (H ++ u)
         else if strHasPre "http://" (lowerStr u) || strHasPre "https://" (lowerStr u)
                 || strHasPre "data:" u then some u
         else some (H ++ "/" ++ u)))
      ∧ ensureAbsolute H none = none := by
  refine ⟨?_, rfl⟩
  unfold ensureAbsolute
  by_cases hb : nonBlankStr u
  · simp only [hb, Bool.not_true, Bool.false_eq_true, if_false, eq_self_iff_true, if_true]
    by_cases h2 : strHasPre "//" u
    · have h1 : strHasPre "/" u = true := by
        apply (strHasPre_single u '/').mpr
        have h2' : strHasPre ⟨['/', '/']⟩ u = true := h2
        cases hd : u.data with
        | nil => simp [strHasPre, hd, List.isPrefixOf] at h2'
        | cons b t =>
          simp [strHasPre, hd, List.isPrefixOf] at h2'
          obtain ⟨hb1, -⟩ := h2'
          obtain rfl : '/' = b := hb1
          exact ⟨t, rfl⟩
      rcases slash_no_scheme u h1 with ⟨ha, hb', hc⟩
      simp [h2, ha, hb', hc]
    · by_cases h1 : strHasPre "/" u
      · rcases slash_no_scheme u h1 with ⟨ha, hb', hc⟩
        simp [h1, h2, ha, hb', hc]
      · by_cases habs : (strHasPre "http://" (lowerStr u) || strHasPre "https://" (lowerStr u)
                 || strHasPre "data:" u) = true
        · simp [habs, h1, h2]
        · simp only [Bool.not_eq_true] at habs
          simp [habs, h1, h2]
  · simp [hb]

end PageSpeedImg
namespace PageSpeedImg

lemma nonBlank_append (a b : String) :
    nonBlankStr (a ++ b) = (nonBlankStr a || nonBlankStr b) := by
  simp [nonBlankStr, String.data_append, List.any_append]

lemma nonBlank_https : nonBlankStr "https:" = true := rfl

lemma nonBlank_slash : nonBlankStr "/" = true := rfl

lemma ensureAbsolute_isSome (H s : String) :
    (ensureAbsolute H (some s)).isSome = nonBlankStr s := by
  simp only [ensureAbsolute]
  split_ifs with h1 h2 h3 h4 <;> simp_all

lemma ensureAbsolute_nonBlank (H s r : String) (h : ensureAbsolute H (some s) = some r) :
    nonBlankStr r = true := by
  simp only [ensureAbsolute] at h
  split_ifs at h with h1 h2 h3 h4
  · injection h with h
    subst h
    simpa using h1
  · injection h with h
    subst h
    simp [nonBlank_append, nonBlank_https]
  · injection h with h
    subst h
    have hnb : nonBlankStr s = true := by simpa using h1
    simp [nonBlank_append, hnb]
  · injection h with h
    subst h
    simp [nonBlank_append, nonBlank_slash]

lemma ensureAbsolute_none_of_blank (H s : String) (hs : nonBlankStr s = false) :
    ensureAbsolute H (some s) = none := by
  cases hE : ensureAbsolute H (some s) with
  | none => rfl
  | some r =>
    have h2 := ensureAbsolute_isSome H s
    rw [hE, hs] at h2
    simp at h2

lemma normCand_isSome (H : String) (c : JsVal) :
    (normalizeCandidate H c).isSome = jsValNonBlank c := by
  cases c <;> simp [normalizeCandidate, jsValNonBlank, ensureAbsolute_isSome]

lemma filterMap_head_eq_find_bind {α β : Type} (f : α → Option β) (p : α → Bool)
    (hp : ∀ a, (f a).isSome = p a) :
    ∀ l : List α, (l.filterMap f).head? = (l.find? p).bind f := by
  intro l
  induction l with
  | nil => rfl
  | cons a l ih =>
    cases hfa : f a with
    | some b =>
      have hpa : p a = true := by rw [← hp a, hfa]; rfl
      simp [List.filterMap_cons, hfa, List.find?_cons_of_pos _ hpa]
    | none =>
      have hpa : p a = false := by rw [← hp a, hfa]; rfl
      rw [List.filterMap_cons_none hfa, List.find?_cons_of_neg _ (by simp [hpa]), ih]

lemma bind_guard_eq (o : Option String) (ho : ∀ r, o = some r → nonBlankStr r = true) :
    o.bind (fun s => if nonBlankStr s then some s else none) = o := by
  cases h : o with
  | none => rfl
  | some r => simp [ho r h]

lemma jsFilterUrl_map_normCand (H : String) (l : List JsVal) :
    jsFilterUrl (l.map (normalizeCandidate H)) = l.filterMap (normalizeCandidate H) := by
  unfold jsFilterUrl
  rw [List.filterMap_map]
  apply List.filterMap_congr
  intro c _
  simp only [Function.comp]
  apply bind_guard_eq
  intro r hr
  cases c with
  | str s => exact ensureAbsolute_nonBlank H s r hr
  | other => simp [normalizeCandidate] at hr
  | absent => simp [normalizeCandidate] at hr

lemma directCandidates_eq (H : String) (d : ImageData) :
    directCandidates H d = ((directFieldList d).map jsOfOpt).filterMap (normalizeCandidate H) := by
  unfold directCandidates jsFilterUrl
  rw [List.filterMap_map, List.filterMap_map]
  apply List.filterMap_congr
  intro c _
  cases c with
  | none => rfl
  | some s =>
    by_cases hs : nonBlankStr s
    · simp only [Function.comp, hs, if_true, jsOfOpt, normalizeCandidate]
      apply bind_guard_eq
      intro r hr
      exact ensureAbsolute_nonBlank H s r hr
    · have hF : nonBlankStr s = false := by simpa using hs
      simp only [Function.comp, hF, Bool.false_eq_true, if_false, jsOfOpt, normalizeCandidate]
      rw [ensureAbsolute_none_of_blank H s hF]
      rfl
lemma variantCandidates_eq (H : String) (d : ImageData) :
    variantCandidates H d
      = (variantCandidateVals (pictureVariantMap d)).filterMap (normalizeCandidate H) := by
  unfold variantCandidates
  exact jsFilterUrl_map_normCand H _

lemma fallbackCandidates_eq (H : String) (d : ImageData) :
    fallbackCandidates H d = [jsOfOpt d.fallback_url].filterMap (normalizeCandidate H) := by
  unfold fallbackCandidates
  cases hf : d.fallback_url with
  | none => rfl
  | some s =>
    by_cases hs : s = ""
    · subst hs
      simp [jsOfOpt, normalizeCandidate, ensureAbsolute_none_of_blank H "" rfl]
    · simp only [hs, if_false, jsOfOpt]
      cases hE : ensureAbsolute H (some s) with
      | none => simp [jsFilterUrl, normalizeCandidate, hE]
      | some r =>
        simp [jsFilterUrl, normalizeCandidate, hE,
          ensureAbsolute_nonBlank H s r hE]

lemma legacyFallback_eq_find (H : String) (d : ImageData) :
    legacyFallback H d = ((codeCandVals d).find? jsValNonBlank).bind (normalizeCandidate H) := by
  unfold legacyFallback codeCandVals
  rw [variantCandidates_eq, directCandidates_eq, fallbackCandidates_eq,
    ← List.filterMap_append, ← List.filterMap_append]
  exact filterMap_head_eq_find_bind (normalizeCandidate H) jsValNonBlank (normCand_isSome H) _

lemma firstTruthyStr_none_all (l : List (Option String)) (h : firstTruthyStr l = none) :
    ∀ o ∈ l, ∀ s, o = some s → s = "" := by
  induction l with
  | nil => intro o ho; simp at ho
  | cons a rest ih =>
    intro o ho s hs
    cases a with
    | none =>
      rcases List.mem_cons.mp ho with rfl | hmem
      · cases hs
      · exact ih (by simpa [firstTruthyStr] using h) o hmem s hs
    | some t =>
      by_cases ht : t = ""
      · subst ht
        rcases List.mem_cons.mp ho with rfl | hmem
        · cases hs; rfl
        · exact ih (by simpa [firstTruthyStr] using h) o hmem s hs
      · simp [firstTruthyStr, ht] at h

lemma firstNonBlankOpt_none (l : List (Option String))
    (h : ∀ o ∈ l, ∀ s, o = some s → s = "") : firstNonBlankOpt l = none := by
  induction l with
  | nil => rfl
  | cons a rest ih =>
    cases a with
    | none =>
      simp only [firstNonBlankOpt]
      exact ih (fun o ho s hs => h o (List.mem_cons_of_mem _ ho) s hs)
    | some t =>
      have ht : t = "" := h (some t) (List.mem_cons_self _ _) t rfl
      subst ht
      simp only [firstNonBlankOpt, nonBlankStr]
      simp only [show ("" : String).data = [] from rfl, List.any_nil, Bool.false_eq_true, if_false]
      exact ih (fun o ho s hs => h o (List.mem_cons_of_mem _ ho) s hs)

lemma c2BestOf_rel (ps : Option ProgressiveSizes) :
    pickBest ps = c2BestOf ps ∨ (pickBest ps = .other ∧ c2BestOf ps = .absent) := by
  cases ps with
  | none => exact Or.inl rfl
  | some v =>
    simp only [pickBest, c2BestOf]
    cases hft : firstTruthyStr [v.md, v.lg, v.sm, v.full] with
    | some s => exact Or.inl rfl
    | none =>
      have hall := firstTruthyStr_none_all _ hft
      have htail : firstNonBlankOpt [v.sm, v.md, v.lg, v.full] = none := by
        apply firstNonBlankOpt_none
        intro o ho s hs
        apply hall o _ s hs
        simp only [List.mem_cons, List.mem_singleton] at ho ⊢
        tauto
      rw [htail]
      cases hm : v.metadata.isSome <;> simp [hm]

lemma find_bind_congr (H : String) (l₁ l₂ : List JsVal)
    (hl : List.Forall₂ (fun a b => jsValNonBlank a = jsValNonBlank b
      ∧ normalizeCandidate H a = normalizeCandidate H b) l₁ l₂) :
    (l₁.find? jsValNonBlank).bind (normalizeCandidate H)
      = (l₂.find? jsValNonBlank).bind (normalizeCandidate H) := by
  induction hl with
  | nil => rfl
  | cons hab hrest ih =>
    rename_i a b t₁ t₂
    cases hpa : jsValNonBlank a with
    | true =>
      have hpb : jsValNonBlank b = true := by rw [← hab.1, hpa]
      rw [List.find?_cons_of_pos _ hpa, List.find?_cons_of_pos _ hpb]
      simpa using hab.2
    | false =>
      have hpb : jsValNonBlank b = false := by rw [← hab.1, hpa]
      rw [List.find?_cons_of_neg _ (by simp [hpa]), List.find?_cons_of_neg _ (by simp [hpb])]
      exact ih

lemma bestOf_pair (H : String) (ps : Option ProgressiveSizes) :
    jsValNonBlank (pickBest ps) = jsValNonBlank (c2BestOf ps)
      ∧ normalizeCandidate H (pickBest ps) = normalizeCandidate H (c2BestOf ps) := by
  rcases c2BestOf_rel ps with h | ⟨h1, h2⟩
  · rw [h]
    exact ⟨rfl, rfl⟩
  · rw [h1, h2]
    exact ⟨rfl, rfl⟩

lemma codeCandVals_rel (H : String) (d : ImageData) :
    List.Forall₂ (fun a b => jsValNonBlank a = jsValNonBlank b
      ∧ normalizeCandidate H a = normalizeCandidate H b) (codeCandVals d) (c2SpecCandidates d) := by
  unfold codeCandVals c2SpecCandidates variantCandidateVals
  refine List.rel_append (List.rel_append ?_ ?_) ?_
  · refine List.Forall₂.cons (bestOf_pair H _) ?_
    refine List.Forall₂.cons (bestOf_pair H _) ?_
    refine List.Forall₂.cons (bestOf_pair H _) ?_
    exact List.forall₂_same.mpr (fun a _ => ⟨rfl, rfl⟩)
  · exact List.forall₂_same.mpr (fun a _ => ⟨rfl, rfl⟩)
  · exact List.forall₂_same.mpr (fun a _ => ⟨rfl, rfl⟩)
lemma legacyFallback_eq_filterMap (H : String) (d : ImageData) :
    legacyFallback H d = ((codeCandVals d).filterMap (normalizeCandidate H)).head? := by
  unfold legacyFallback codeCandVals
  rw [variantCandidates_eq, directCandidates_eq, fallbackCandidates_eq,
    ← List.filterMap_append, ← List.filterMap_append]

lemma pictureOf_isNone_iff (H : String) (d : ImageData) :
    (pictureOf H d).isNone = (legacyFallback H d).isNone := by
  unfold pictureOf
  cases legacyFallback H d <;> simp

lemma pictureOf_fallback (H : String) (d : ImageData) (pr : PictureResult)
    (hp : pictureOf H d = some pr) : legacyFallback H d = some pr.fallback := by
  unfold pictureOf at hp
  cases hLF : legacyFallback H d with
  | none => rw [hLF] at hp; cases hp
  | some fb =>
    rw [hLF] at hp
    injection hp with hp
    rw [← hp]

/-- Claim C2: the resolver's fallback URL is the normalization of the first
non-blank candidate in the claim's order (best-of WEBP, JPEG, AVIF, then every
raw slot of WEBP, JPEG, AVIF in breakpoint order, then the direct fields, then
`fallback_url`); with every candidate blank the picture memo yields no
renderable source and the component falls to the placeholder branch. -/
theorem c2_fallback_order (H : String) (d : ImageData) :
    legacyFallback H d
        = ((c2SpecCandidates d).find? jsValNonBlank).bind (normalizeCandidate H)
      ∧ ((pictureOf H d).isNone = true ↔ ∀ c ∈ c2SpecCandidates d, jsValNonBlank c = false)
      ∧ ((pictureOf H d).isNone = true →
          legacyRenderIsPlaceholder (some d) (pictureOf H d) true = true) := by
  have h1 : legacyFallback H d
      = ((c2SpecCandidates d).find? jsValNonBlank).bind (normalizeCandidate H) :=
    (legacyFallback_eq_find H d).trans (find_bind_congr H _ _ (codeCandVals_rel H d))
  refine ⟨h1, ?_, ?_⟩
  · rw [pictureOf_isNone_iff, h1]
    constructor
    · intro hn c hc
      cases hfind : (c2SpecCandidates d).find? jsValNonBlank with
      | none =>
        have := List.find?_eq_none.mp hfind c hc
        simpa using this
      | some c' =>
        rw [hfind] at hn
        have hc' : jsValNonBlank c' = true := List.find?_some hfind
        have hS : (normalizeCandidate H c').isSome = true := by rw [normCand_isSome, hc']
        have hb : (some c').bind (normalizeCandidate H) = normalizeCandidate H c' := rfl
        rw [hb] at hn
        cases hN : normalizeCandidate H c' with
        | none => rw [hN] at hS; cases hS
        | some r => rw [hN] at hn; cases hn
    · intro hall
      have hfind : (c2SpecCandidates d).find? jsValNonBlank = none :=
        List.find?_eq_none.mpr (fun c hc => by simp [hall c hc])
      simp [hfind]
  · intro hn
    simp [legacyRenderIsPlaceholder, Option.isNone_iff_eq_none.mp hn]

/-- Witness: the fallback equation at a concrete descriptor. -/
theorem c2_fallback_order_witness :
    legacyFallback "https://cdn.ing" dImg
      = ((c2SpecCandidates dImg).find? jsValNonBlank).bind (normalizeCandidate "https://cdn.ing") :=
  (c2_fallback_order "https://cdn.ing" dImg).1

lemma strHasPre_dslash (u : String) (h : strHasPre "//" u = true) :
    ∃ t, u.data = '/' :: '/' :: t := by
  have h' : strHasPre ⟨['/', '/']⟩ u = true := h
  cases hd : u.data with
  | nil => simp [strHasPre, hd, List.isPrefixOf] at h'
  | cons b t =>
    simp [strHasPre, hd, List.isPrefixOf] at h'
    obtain ⟨hb1, hb2⟩ := h'
    obtain rfl : '/' = b := hb1
    obtain ⟨t2, ht2⟩ := hb2
    refine ⟨t2, ?_⟩
    rw [← ht2]
    rfl

lemma isPrefixOf_append_same (l₁ l₂ l₃ : List Char) :
    (l₁ ++ l₂).isPrefixOf (l₁ ++ l₃) = l₂.isPrefixOf l₃ := by
  induction l₁ with
  | nil => rfl
  | cons c t ih => simp [List.isPrefixOf, ih]

lemma ensureAbsolute_absolute (H s r : String) (h : ensureAbsolute H (some s) = some r) :
    absolutePerClaim H r := by
  simp only [ensureAbsolute] at h
  split_ifs at h with h1 h2 h3 h4
  · injection h with h
    subst h
    rcases Bool.or_eq_true _ _ |>.mp h2 with hor | hd
    · rcases Bool.or_eq_true _ _ |>.mp hor with ha | hb
      · exact Or.inl ha
      · exact Or.inr (Or.inl hb)
    · exact Or.inr (Or.inr (Or.inl hd))
  · injection h with h
    subst h
    refine Or.inr (Or.inl ?_)
    rcases strHasPre_dslash s h3 with ⟨t, ht⟩
    have hdata : (lowerStr ("https:" ++ s)).data
        = "https:".data ++ '/' :: '/' :: t.map Char.toLower := by
      simp only [lowerStr, String.data_append, List.map_append, ht, List.map_cons]
      rfl
    have hpref : ("https://").data = "https:".data ++ ['/', '/'] := rfl
    simp only [strHasPre, hdata, hpref, isPrefixOf_append_same]
    simp [List.isPrefixOf]
  · injection h with h
    subst h
    exact Or.inr (Or.inr (Or.inr ⟨s, rfl⟩))
  · injection h with h
    subst h
    exact Or.inr (Or.inr (Or.inr ⟨"/" ++ s, String.append_assoc H "/" s⟩))

lemma normCand_absolute (H : String) (c : JsVal) (r : String)
    (h : normalizeCandidate H c = some r) : absolutePerClaim H r := by
  cases c with
  | str s => exact ensureAbsolute_absolute H s r h
  | other => cases h
  | absent => cases h

lemma mem_srcPush (H : String) (u : Option String) (wd : Int) (e : String)
    (he : e ∈ srcPush H u wd) :
    ∃ a, ensureAbsolute H u = some a ∧ e = a ++ " " ++ toString wd ++ "w" := by
  unfold srcPush at he
  cases hE : ensureAbsolute H u with
  | none => rw [hE] at he; cases he
  | some a =>
    rw [hE] at he
    by_cases hw : wd = 0
    · simp [hw] at he
    · simp only [hw, if_false] at he
      rcases List.mem_singleton.mp he with rfl
      exact ⟨a, rfl, rfl⟩

lemma ensureAbsolute_opt_absolute (H : String) (u : Option String) (r : String)
    (h : ensureAbsolute H u = some r) : absolutePerClaim H r := by
  cases u with
  | none => cases h
  | some s => exact ensureAbsolute_absolute H s r h

lemma srcSetEntries_absolute (H : String) (wt : WidthTable) (ps : ProgressiveSizes)
    (e : String) (he : e ∈ srcSetEntries H wt ps) :
    ∃ u wd, e = u ++ " " ++ toString (wd : Int) ++ "w" ∧ absolutePerClaim H u := by
  unfold srcSetEntries at he
  rcases List.mem_append.mp he with he' | hfull
  · rcases List.mem_append.mp he' with he'' | hlg
    · rcases List.mem_append.mp he'' with hsm | hmd
      · rcases mem_srcPush _ _ _ _ hsm with ⟨a, ha, rfl⟩
        exact ⟨a, wt.sm, rfl, ensureAbsolute_opt_absolute H _ a ha⟩
      · rcases mem_srcPush _ _ _ _ hmd with ⟨a, ha, rfl⟩
        exact ⟨a, wt.md, rfl, ensureAbsolute_opt_absolute H _ a ha⟩
    · rcases mem_srcPush _ _ _ _ hlg with ⟨a, ha, rfl⟩
      exact ⟨a, wt.lg, rfl, ensureAbsolute_opt_absolute H _ a ha⟩
  · rcases mem_srcPush _ _ _ _ hfull with ⟨a, ha, rfl⟩
    exact ⟨a, wt.full, rfl, ensureAbsolute_opt_absolute H _ a ha⟩
/-- Claim C9: every URL the legacy resolver emits — the chosen fallback URL
and every URL inside every source-set entry — is absolute in the claim's
sense: it starts with `http://` or `https://` (case-insensitively), or with
`data:`, or it is the normalized CDN origin followed by the original path. -/
theorem c9_absolute_urls (H : String) (d : ImageData) (pr : PictureResult)
    (hp : pictureOf H d = some pr) :
    absolutePerClaim H pr.fallback
      ∧ ∀ ps : ProgressiveSizes,
          (pr.webp = some ps ∨ pr.avif = some ps ∨ pr.jpeg = some ps) →
          ∀ e ∈ srcSetEntries H pr.widths ps,
            ∃ u wd, e = u ++ " " ++ toString (wd : Int) ++ "w" ∧ absolutePerClaim H u := by
  constructor
  · have hfb : legacyFallback H d = some pr.fallback := pictureOf_fallback H d pr hp
    rw [legacyFallback_eq_filterMap] at hfb
    have hmem : pr.fallback ∈ (codeCandVals d).filterMap (normalizeCandidate H) := by
      cases hl : (codeCandVals d).filterMap (normalizeCandidate H) with
      | nil => rw [hl] at hfb; cases hfb
      | cons x xs =>
        rw [hl] at hfb
        injection hfb with hfb
        rw [← hfb]
        exact List.mem_cons_self _ _
    rcases List.mem_filterMap.mp hmem with ⟨c, _, hc⟩
    exact normCand_absolute H c pr.fallback hc
  · intro ps _ e he
    exact srcSetEntries_absolute H pr.widths ps e he

/-- Witness: the picture memo output at a concrete descriptor and its
absolute fallback. -/
theorem c9_absolute_urls_witness :
    pictureOf "https://cdn.ing" dImg = some prW
      ∧ absolutePerClaim "https://cdn.ing" prW.fallback :=
  ⟨by decide, (c9_absolute_urls "https://cdn.ing" dImg prW (by decide)).1⟩
/-- Claim C3: the fetcher tries the primary endpoint first; a non-abort
failure falls through to the legacy endpoint; an abort propagates immediately
without attempting the next candidate; when both fail the rejection is the last
non-cancellation error, carrying the failing URL and status for a non-2xx
response. -/
theorem c3_fetch_protocol (world : String → FetchOutcome) (mediaId : JsNum)
    (options : FetchOptions) (cache : Cache)
    (hfin : mediaId.finite = true)
    (hmiss : (if options.bypassCache then none
              else cacheGet (mkCacheKey (normalizeHost options.cdnHost) mediaId.val) cache)
        = none) :
    (fetchImageData world mediaId options cache).attempted.head?
        = some (buildPrimaryImageUrl mediaId.val (some (normalizeHost options.cdnHost)))
      ∧ (∀ d, world (buildPrimaryImageUrl mediaId.val (some (normalizeHost options.cdnHost)))
            = .ok d →
          (fetchImageData world mediaId options cache).result = .ok d
            ∧ (fetchImageData world mediaId options cache).attempted
                = [buildPrimaryImageUrl mediaId.val (some (normalizeHost options.cdnHost))])
      ∧ (world (buildPrimaryImageUrl mediaId.val (some (normalizeHost options.cdnHost)))
            = .abortErr →
          (fetchImageData world mediaId options cache).result = .error .abort
            ∧ (fetchImageData world mediaId options cache).attempted
                = [buildPrimaryImageUrl mediaId.val (some (normalizeHost options.cdnHost))])
      ∧ ((world (buildPrimaryImageUrl mediaId.val
            (some (normalizeHost options.cdnHost)))).isFailNonAbort = true →
          (fetchImageData world mediaId options cache).attempted
              = [buildPrimaryImageUrl mediaId.val (some (normalizeHost options.cdnHost)),
                 buildLegacyImageUrl mediaId.val (some (normalizeHost options.cdnHost))]
            ∧ (∀ d, world (buildLegacyImageUrl mediaId.val
                  (some (normalizeHost options.cdnHost))) = .ok d →
                (fetchImageData world mediaId options cache).result = .ok d)
            ∧ (world (buildLegacyImageUrl mediaId.val
                  (some (normalizeHost options.cdnHost))) = .abortErr →
                (fetchImageData world mediaId options cache).result = .error .abort)
            ∧ (∀ st, world (buildLegacyImageUrl mediaId.val
                  (some (normalizeHost options.cdnHost))) = .httpErr st →
                (fetchImageData world mediaId options cache).result
                  = .error (.http (buildLegacyImageUrl mediaId.val
                      (some (normalizeHost options.cdnHost))) st))
            ∧ (∀ tg, world (buildLegacyImageUrl mediaId.val
                  (some (normalizeHost options.cdnHost))) = .netErr tg →
                (fetchImageData world mediaId options cache).result = .error (.net tg))) := by
  have hun : fetchImageData world mediaId options cache
      = fetchLoop world (mkCacheKey (normalizeHost options.cdnHost) mediaId.val) cache none []
          [buildPrimaryImageUrl mediaId.val (some (normalizeHost options.cdnHost)),
           buildLegacyImageUrl mediaId.val (some (normalizeHost options.cdnHost))] := by
    unfold fetchImageData
    rw [hfin]
    simp only [Bool.not_true, Bool.false_eq_true, if_false]
    rw [hmiss]
  rw [hun]
  set p := buildPrimaryImageUrl mediaId.val (some (normalizeHost options.cdnHost)) with hp
  set l := buildLegacyImageUrl mediaId.val (some (normalizeHost options.cdnHost)) with hlg
  cases hw1 : world p with
  | ok d =>
    by_cases hren : imageDataHasRenderableSource d <;>
      simp [fetchLoop, hw1, hren, FetchOutcome.isFailNonAbort]
  | abortErr => simp [fetchLoop, hw1, FetchOutcome.isFailNonAbort]
  | httpErr st =>
    cases hw2 : world l with
    | ok d =>
      by_cases hren : imageDataHasRenderableSource d <;>
        simp [fetchLoop, hw1, hw2, hren, FetchOutcome.isFailNonAbort]
    | abortErr => simp [fetchLoop, hw1, hw2, FetchOutcome.isFailNonAbort]
    | httpErr st2 => simp [fetchLoop, hw1, hw2, FetchOutcome.isFailNonAbort]
    | netErr tg2 => simp [fetchLoop, hw1, hw2, FetchOutcome.isFailNonAbort]
  | netErr tg =>
    cases hw2 : world l with
    | ok d =>
      by_cases hren : imageDataHasRenderableSource d <;>
        simp [fetchLoop, hw1, hw2, hren, FetchOutcome.isFailNonAbort]
    | abortErr => simp [fetchLoop, hw1, hw2, FetchOutcome.isFailNonAbort]
    | httpErr st2 => simp [fetchLoop, hw1, hw2, FetchOutcome.isFailNonAbort]
    | netErr tg2 => simp [fetchLoop, hw1, hw2, FetchOutcome.isFailNonAbort]
/-- Witness: primary rejects with 500, legacy succeeds — both URLs attempted
in order and the legacy descriptor is returned. -/
theorem c3_fetch_protocol_witness :
    (worldW (buildPrimaryImageUrl 7 (some (normalizeHost none)))).isFailNonAbort = true
      ∧ (fetchImageData worldW ⟨true, 7⟩ {} []).attempted
          = [buildPrimaryImageUrl 7 (some (normalizeHost none)),
             buildLegacyImageUrl 7 (some (normalizeHost none))]
      ∧ (fetchImageData worldW ⟨true, 7⟩ {} []).result = .ok dW := by
  have h := c3_fetch_protocol worldW ⟨true, 7⟩ {} [] rfl (by decide)
  have h4 := h.2.2.2 (by decide)
  exact ⟨by decide, h4.1, h4.2.1 dW (by decide)⟩

lemma fetchImageData_characterization (world : String → FetchOutcome) (mediaId : JsNum)
    (options : FetchOptions) (cache : Cache) :
    (∃ d, (fetchImageData world mediaId options cache).result = Except.ok d
        ∧ (fetchImageData world mediaId options cache).attempted ≠ []
        ∧ (fetchImageData world mediaId options cache).writes
            = (if imageDataHasRenderableSource d
               then [(mkCacheKey (normalizeHost options.cdnHost) mediaId.val, d)] else [])
        ∧ (fetchImageData world mediaId options cache).cache
            = (if imageDataHasRenderableSource d
               then cacheSet (mkCacheKey (normalizeHost options.cdnHost) mediaId.val) d cache
               else cache))
    ∨ ((fetchImageData world mediaId options cache).writes = []
        ∧ (fetchImageData world mediaId options cache).cache = cache
        ∧ ((fetchImageData world mediaId options cache).attempted = []
            ∨ ∀ d, (fetchImageData world mediaId options cache).result ≠ Except.ok d)) := by
  unfold fetchImageData
  by_cases hfin : mediaId.finite
  case neg =>
    right
    simp [hfin]
  case pos =>
    simp only [hfin, Bool.not_true, Bool.false_eq_true, if_false]
    cases hcc : (if options.bypassCache then none
        else cacheGet (mkCacheKey (normalizeHost options.cdnHost) mediaId.val) cache) with
    | some cached =>
      right
      exact ⟨rfl, rfl, Or.inl rfl⟩
    | none =>
      set p := buildPrimaryImageUrl mediaId.val (some (normalizeHost options.cdnHost))
      set l := buildLegacyImageUrl mediaId.val (some (normalizeHost options.cdnHost))
      cases hw1 : world p with
      | ok d1 =>
        left
        refine ⟨d1, ?_⟩
        by_cases hren : imageDataHasRenderableSource d1 <;>
          simp [fetchLoop, hw1, hren]
      | abortErr =>
        right
        simp [fetchLoop, hw1]
      | httpErr st =>
        cases hw2 : world l with
        | ok d1 =>
          left
          refine ⟨d1, ?_⟩
          by_cases hren : imageDataHasRenderableSource d1 <;>
            simp [fetchLoop, hw1, hw2, hren]
        | abortErr =>
          right
          simp [fetchLoop, hw1, hw2]
        | httpErr st2 =>
          right
          simp [fetchLoop, hw1, hw2]
        | netErr tg2 =>
          right
          simp [fetchLoop, hw1, hw2]
      | netErr tg =>
        cases hw2 : world l with
        | ok d1 =>
          left
          refine ⟨d1, ?_⟩
          by_cases hren : imageDataHasRenderableSource d1 <;>
            simp [fetchLoop, hw1, hw2, hren]
        | abortErr =>
          right
          simp [fetchLoop, hw1, hw2]
        | httpErr st2 =>
          right
          simp [fetchLoop, hw1, hw2]
        | netErr tg2 =>
          right
          simp [fetchLoop, hw1, hw2]

/-- Claim C4: the cache is written exactly when a fetch attempt succeeds and
the descriptor is renderable per the classifier (then under the key
`image:<normalizedHost>:<id>`); the fetched descriptor is returned regardless
of renderability, and no other path writes. -/
theorem c4_cache_policy (world : String → FetchOutcome) (mediaId : JsNum)
    (options : FetchOptions) (cache : Cache) :
    (∀ d, (fetchImageData world mediaId options cache).result = Except.ok d →
        (fetchImageData world mediaId options cache).attempted ≠ [] →
        (fetchImageData world mediaId options cache).writes
            = (if imageDataHasRenderableSource d
               then [(mkCacheKey (normalizeHost options.cdnHost) mediaId.val, d)] else [])
          ∧ (fetchImageData world mediaId options cache).cache
            = (if imageDataHasRenderableSource d
               then cacheSet (mkCacheKey (normalizeHost options.cdnHost) mediaId.val) d cache
               else cache))
      ∧ ((fetchImageData world mediaId options cache).writes ≠ [] →
          ∃ d, (fetchImageData world mediaId options cache).result = Except.ok d
            ∧ (fetchImageData world mediaId options cache).attempted ≠ []
            ∧ imageDataHasRenderableSource d = true)
      ∧ (∀ (h : String) (n : Int), mkCacheKey h n = "image:" ++ h ++ ":" ++ toString n) := by
  rcases fetchImageData_characterization world mediaId options cache with
    ⟨d0, hres0, hatt0, hw0, hc0⟩ | ⟨hw0, hc0, hother⟩
  · refine ⟨?_, ?_, fun h n => rfl⟩
    · intro d hres hatt
      rw [hres0] at hres
      injection hres with hres
      subst hres
      exact ⟨hw0, hc0⟩
    · intro _
      refine ⟨d0, hres0, hatt0, ?_⟩
      by_cases hren : imageDataHasRenderableSource d0
      · exact hren
      · rw [hw0] at *
        simp [hren] at *
  · refine ⟨?_, ?_, fun h n => rfl⟩
    · intro d hres hatt
      rcases hother with hatt0 | hres0
      · exact absurd hatt0 hatt
      · exact absurd hres (hres0 d)
    · intro hw
      exact absurd hw0 hw

/-- Witness: a successful fetch of a renderable descriptor writes exactly the
keyed entry, and the descriptor is returned. -/
theorem c4_cache_policy_witness :
    (fetchImageData worldW ⟨true, 7⟩ {} []).result = Except.ok dW
      ∧ (fetchImageData worldW ⟨true, 7⟩ {} []).attempted ≠ []
      ∧ (fetchImageData worldW ⟨true, 7⟩ {} []).writes
          = (if imageDataHasRenderableSource dW
             then [(mkCacheKey (normalizeHost none) (7 : Int), dW)] else []) := by
  have h := (c4_cache_policy worldW ⟨true, 7⟩ {} []).1 dW rfl (by decide)
  exact ⟨rfl, by decide, h.1⟩
lemma applyPE_data (s : PollState) : (applyPollEffects s).data = s.data := by
  simp only [applyPollEffects]
  split_ifs <;> rfl

lemma applyPE_retry (s : PollState) : (applyPollEffects s).retryCount = s.retryCount := by
  simp only [applyPollEffects]
  split_ifs <;> rfl

lemma applyPE_pending (s : PollState) : (applyPollEffects s).pending = s.pending := by
  simp only [applyPollEffects]
  split_ifs <;> rfl

lemma pollCond_applyPE (s : PollState) : pollCond (applyPollEffects s) = pollCond s := by
  unfold pollCond shouldPollForVariants
  rw [applyPE_data, applyPE_retry]

lemma applyPE_armed_sound (s : PollState) (h : (applyPollEffects s).armed = true) :
    pollCond (applyPollEffects s) = true ∧ (applyPollEffects s).prevShould = true := by
  rw [pollCond_applyPE]
  simp only [applyPollEffects] at h ⊢
  by_cases h1 : (pollCond s && !s.prevShould) = true
  · have hc := (Bool.and_eq_true _ _ |>.mp h1).1
    rw [if_pos h1]
    exact ⟨hc, hc⟩
  · by_cases h2 : (!pollCond s) = true
    · rw [if_neg h1, if_pos h2] at h
      cases h
    · have hc : pollCond s = true := by
        rcases Bool.eq_false_or_eq_true (pollCond s) with ht | hf
        · exact ht
        · exact absurd (by simp [hf]) h2
      rw [if_neg h1, if_neg h2]
      exact ⟨hc, hc⟩

lemma pollInit_inv : pollInv pollInitState := by
  constructor
  · intro h
    cases h
  · decide

lemma pollCond_retry_lt (s : PollState) (h : pollCond s = true) :
    s.retryCount < MAX_VARIANT_REFRESH_ATTEMPTS := by
  unfold pollCond shouldPollForVariants at h
  have := (Bool.and_eq_true _ _ |>.mp h).2
  simpa using this

lemma pollStep_inv (s s' : PollState) (e : PollEv) (hs : pollStep s e = some s')
    (hinv : pollInv s) :
    pollInv s' ∧ s'.retryCount = s.retryCount + countTimer [e] := by
  cases e with
  | receive d =>
    unfold pollStep at hs
    by_cases hp : s.pending
    · simp only [hp, if_true] at hs
      injection hs with hs
      subst hs
      refine ⟨⟨applyPE_armed_sound _, ?_⟩, ?_⟩
      · rw [applyPE_retry]
        exact hinv.2
      · rw [applyPE_retry]
        simp [countTimer]
    · simp [hp] at hs
  | timer =>
    unfold pollStep at hs
    by_cases ha : s.armed
    · simp only [ha, if_true] at hs
      injection hs with hs
      subst hs
      have hcond : pollCond s = true := (hinv.1 ha).1
      have hlt : s.retryCount < MAX_VARIANT_REFRESH_ATTEMPTS := pollCond_retry_lt s hcond
      refine ⟨⟨applyPE_armed_sound _, ?_⟩, ?_⟩
      · rw [applyPE_retry]
        exact hlt
      · rw [applyPE_retry]
        simp [countTimer]
    · simp [ha] at hs

lemma countTimer_cons (e : PollEv) (rest : List PollEv) :
    countTimer (e :: rest) = countTimer [e] + countTimer rest := by
  cases e <;> simp [countTimer, List.filter, Nat.add_comm]

lemma pollRun_inv (evs : List PollEv) :
    ∀ s s', pollRun s evs = some s' → pollInv s →
      pollInv s' ∧ s'.retryCount = s.retryCount + countTimer evs := by
  induction evs with
  | nil =>
    intro s s' h hinv
    injection h with h
    subst h
    exact ⟨hinv, by simp [countTimer]⟩
  | cons e rest ih =>
    intro s s' h hinv
    unfold pollRun at h
    cases hstep : pollStep s e with
    | none => rw [hstep] at h; cases h
    | some s1 =>
      rw [hstep] at h
      simp only [Option.some_bind] at h
      rcases pollStep_inv s s1 e hstep hinv with ⟨hinv1, hr1⟩
      rcases ih s1 s' h hinv1 with ⟨hinv', hr'⟩
      refine ⟨hinv', ?_⟩
      rw [countTimer_cons]
      omega

lemma pollRun_ceiling (evs : List PollEv) :
    ∀ s s', pollInv s → MAX_VARIANT_REFRESH_ATTEMPTS ≤ s.retryCount →
      pollRun s evs = some s' → countTimer evs = 0 := by
  induction evs with
  | nil => intro s s' _ _ _; rfl
  | cons e rest ih =>
    intro s s' hinv hge h
    unfold pollRun at h
    cases hstep : pollStep s e with
    | none => rw [hstep] at h; cases h
    | some s1 =>
      rw [hstep] at h
      simp only [Option.some_bind] at h
      cases e with
      | timer =>
        exfalso
        unfold pollStep at hstep
        by_cases ha : s.armed
        · have hcond := (hinv.1 ha).1
          have := pollCond_retry_lt s hcond
          omega
        · simp [ha] at hstep
      | receive d =>
        rcases pollStep_inv s s1 _ hstep hinv with ⟨hinv1, hr1⟩
        have hct : countTimer [PollEv.receive d] = 0 := by
          simp [countTimer, List.filter]
        have hge1 : MAX_VARIANT_REFRESH_ATTEMPTS ≤ s1.retryCount := by omega
        rw [countTimer_cons, ih s1 s' hinv1 hge1 h, hct]

lemma pollCond_failed (s : PollState) (hf : variantsFailedOf s.data = true) :
    pollCond s = false := by
  unfold pollCond shouldPollForVariants
  simp [hf]

/-- Claim C5 (amended): the refresh constants are 3000 ms and 5 attempts with
cache bypass on every re-fetch; the polling condition tests the variant map
(not whole-descriptor renderability); a refresh timeout is armed only at a
false→true edge of that condition, so an armed timeout always implies the
condition; every run performs exactly `retryCount` re-fetches and never more
than 5; reaching the ceiling stops all further re-fetches, and a failed
status with no fetch in flight stops every event permanently. -/
theorem c5_polling_amended :
    (MAX_VARIANT_REFRESH_ATTEMPTS = 5 ∧ VARIANT_REFRESH_DELAY_MS = 3000
        ∧ ∀ r : Nat, legacyBypassCache r = decide (0 < r))
      ∧ (∀ (d : ImageData) (r : Nat),
          shouldPollForVariants true (some d) r
            = (!variantsFailedOf (some d)
                && !imageVariantsHaveRenderableSource (variantsOfData d)
                && decide (r < MAX_VARIANT_REFRESH_ATTEMPTS)))
      ∧ (∀ evs s', pollRun pollInitState evs = some s' →
          countTimer evs = s'.retryCount
            ∧ s'.retryCount ≤ MAX_VARIANT_REFRESH_ATTEMPTS
            ∧ (s'.armed = true → pollCond s' = true)
            ∧ (MAX_VARIANT_REFRESH_ATTEMPTS ≤ s'.retryCount →
                ∀ evs₂ s'', pollRun s' evs₂ = some s'' → countTimer evs₂ = 0)
            ∧ (variantsFailedOf s'.data = true → s'.pending = false →
                ∀ e, pollStep s' e = none)) := by
  refine ⟨⟨rfl, rfl, fun r => rfl⟩, ?_, ?_⟩
  · intro d r
    unfold shouldPollForVariants hasVariantEntriesOf
    simp [Bool.and_assoc]
  · intro evs s' hrun
    rcases pollRun_inv evs pollInitState s' hrun pollInit_inv with ⟨hinv, hcount⟩
    refine ⟨?_, hinv.2, fun ha => (hinv.1 ha).1, ?_, ?_⟩
    · have h0 : pollInitState.retryCount = 0 := rfl
      omega
    · intro hge evs₂ s'' hrun₂
      exact pollRun_ceiling evs₂ s' s'' hinv hge hrun₂
    · intro hf hp e
      cases e with
      | receive d =>
        unfold pollStep
        simp [hp]
      | timer =>
        unfold pollStep
        have harm : s'.armed = false := by
          rcases Bool.eq_false_or_eq_true s'.armed with h | h
          · have := (hinv.1 h).1
            rw [pollCond_failed s' hf] at this
            cases this
          · exact h
        simp [harm]

/-- Claim C5 counterexample, both directions of the claimed "exactly when":
a descriptor renderable through a direct URL still arms a re-fetch timeout
(the code checks only variant entries); and after one timeout has fired, a
state satisfying every claimed condition (descriptor received, not failed,
not renderable, one attempt out of five) has no armed timeout, no fetch in
flight, and admits no further event — no re-fetch is ever scheduled again. -/
theorem c5_polling_cex :
    (pollRun pollInitState [PollEv.receive dImg] = some pollStateA
        ∧ pollStateA.armed = true
        ∧ imageDataHasRenderableSource dImg = true)
      ∧ (pollRun pollInitState [PollEv.receive dPend, PollEv.timer, PollEv.receive dPend]
            = some pollStateB
          ∧ pollStateB.data.isSome = true
          ∧ variantsFailedOf pollStateB.data = false
          ∧ imageDataHasRenderableSource dPend = false
          ∧ pollStateB.retryCount < MAX_VARIANT_REFRESH_ATTEMPTS
          ∧ pollStateB.armed = false
          ∧ pollStateB.pending = false
          ∧ pollStep pollStateB PollEv.timer = none
          ∧ pollStep pollStateB (PollEv.receive dPend) = none) := by
  refine ⟨⟨by decide, by decide, by decide⟩,
    ⟨by decide, by decide, by decide, by decide, by decide, by decide, by decide,
     by decide, by decide⟩⟩

/-- Witness: a concrete run of the poll machine matching the amended claim's
count equation. -/
theorem c5_polling_witness :
    pollRun pollInitState [PollEv.receive dPend, PollEv.timer] = some pollStateW
      ∧ countTimer [PollEv.receive dPend, PollEv.timer] = pollStateW.retryCount :=
  ⟨by decide,
    ((c5_polling_amended.2.2) [PollEv.receive dPend, PollEv.timer] pollStateW (by decide)).1⟩
